import Mathlib

/-!
Shallow embedding of the customized XMonad-style tiling layout in
`.config/qtile/xmonad.py` (classes `MonadTall` / `MonadWide`).

Conventions of the embedding:
* Python `int()` (truncation toward zero) is `pyInt`; Python `//` (floor
  division) is `Int.fdiv`.
* Fractional quantities (`ratio`, `relative_sizes`, pixel amounts that pass
  through `/`) are rationals.
* `place(x, y, w, h, borderwidth, colour, margin)` is recorded as its
  argument vector `PlaceArgs`; the window's outer footprint (the
  X11 rectangle including the drawn border, after qtile applies the margin
  insets `x += m_left, w -= m_left + m_right`, analogously for `y`/`h`) is
  recovered by `outerLeft`/`outerWidth`/`outerTop`/`outerHeight`.
* The mutable layout object is the record `MT`; each `cmd_*` method becomes a
  state-to-state function.  The host-side reflow (`self.group.layout_all()`)
  re-runs `configure`, which is itself embedded, so the commands here carry
  only the state they themselves mutate.
* `clientHeights` records the host-reported `client.height` attribute of each
  managed window (read by `MonadTall._shrink_slave`).
-/

set_option allowUnsafeReducibility true in
attribute [semireducible] Rat.mul Rat.add Rat.sub Rat.inv Rat.ofScientific

namespace QtileXmonad

/-- Python `int()` applied to a rational: truncation toward zero. -/
def pyInt (q : ℚ) : ℤ := if q < 0 then ⌈q⌉ else ⌊q⌋

/-- The screen rectangle handed to the layout by the host. -/
structure Rect where
  x : ℤ
  y : ℤ
  width : ℤ
  height : ℤ
deriving DecidableEq

/-- State of a `MonadTall`/`MonadWide` layout object: the configured options
together with the mutable fields (`clients` is abstracted to its length and
current index; client identity plays no role in the embedded operations). -/
structure MT where
  clientCount : ℕ
  /-- `self.clients.current_index` -/
  focused : ℕ
  masterLength : ℤ
  ratio : ℚ
  /-- `0 = _left` (`_up` for wide), `1 = _right` (`_down`) -/
  align : ℕ
  /-- `0 = _vert` for tall / `_hori` for wide (the class constants coincide
  numerically), `1` the other value -/
  orientation : ℕ
  maximized : Bool
  relativeSizes : List ℚ
  doNormalize : Bool
  screenRect : Option Rect
  minSlaveSize : ℤ
  changeSize : ℚ
  changeRatio : ℚ
  minRatio : ℚ
  maxRatio : ℚ
  borderWidth : ℤ
  singleBorderWidth : ℤ
  singleMargin : ℤ
  margin : ℤ
  /-- host-reported `client.height` for each client, in client order -/
  clientHeights : List ℚ
deriving DecidableEq

/-- `len(self.clients[self.master_length:])`: the number of slave windows. -/
def slaveCount (s : MT) : ℕ := s.clientCount - s.masterLength.toNat

/-- `MonadTall.cmd_normalize` (state part; the trailing `layout_all` redraw
only re-runs `configure`): sets `relative_sizes` to `[1/n] * n` with
`n = len(self.clients) - 1` when `n > 0` and a screen rect is present, and
clears `do_normalize`. -/
def cmdNormalizeState (s : MT) : MT :=
  let n : ℤ := (s.clientCount : ℤ) - 1
  { s with
    relativeSizes :=
      if 0 < n ∧ s.screenRect.isSome then
        List.replicate n.toNat ((1 : ℚ) / (n : ℚ))
      else s.relativeSizes,
    doNormalize := false }

/-- `MonadTall.cmd_reset` (state part).  Faithful to the source, including the
slip in its third statement: `if self.orientation == self._hori:
self.align = self._vert` assigns `align` (with the value `_vert = 0`) and
leaves `orientation` untouched. -/
def cmdResetState (s : MT) : MT :=
  let s1 := { s with ratio := (1 : ℚ) / 2 }
  let s2 := if s1.align = 1 then { s1 with align := 0 } else s1
  let s3 := if s2.orientation = 1 then { s2 with align := 0 } else s2
  cmdNormalizeState s3

/-- `MonadTall.cmd_maximize` (state part): toggle the `maximized` flag. -/
def cmdMaximizeState (s : MT) : MT := { s with maximized := !s.maximized }

/-- `MonadTall.cmd_decrease_nmaster`. -/
def cmdDecreaseNmaster (s : MT) : MT :=
  let m := s.masterLength - 1
  { s with masterLength := if m ≤ 0 then 1 else m }

/-- `MonadTall.cmd_increase_nmaster`. -/
def cmdIncreaseNmaster (s : MT) : MT :=
  let m := s.masterLength + 1
  { s with masterLength := if (s.clientCount : ℤ) - 1 ≤ m then (s.clientCount : ℤ) - 1 else m }

/-- Argument vector of one `client.place(x, y, w, h, borderwidth, colour,
margin=[mTop, mRight, mBottom, mLeft])` call (colour omitted: no claim
concerns it; a scalar `margin=m` is the uniform vector). -/
structure PlaceArgs where
  x : ℤ
  y : ℤ
  w : ℤ
  h : ℤ
  bw : ℤ
  mTop : ℤ
  mRight : ℤ
  mBottom : ℤ
  mLeft : ℤ
deriving DecidableEq

/-- What `configure` does to one client: hide it, or place it. -/
inductive ConfigResult
  | hidden
  | placed (args : PlaceArgs)
deriving DecidableEq

/-- Left edge of the window's outer footprint (border included). -/
def outerLeft (p : PlaceArgs) : ℤ := p.x + p.mLeft

/-- Width of the window's outer footprint (border included). -/
def outerWidth (p : PlaceArgs) : ℤ := p.w - p.mLeft - p.mRight + 2 * p.bw

/-- Top edge of the window's outer footprint (border included). -/
def outerTop (p : PlaceArgs) : ℤ := p.y + p.mTop

/-- Height of the window's outer footprint (border included). -/
def outerHeight (p : PlaceArgs) : ℤ := p.h - p.mTop - p.mBottom + 2 * p.bw

/-- `MonadTall._configure_specific` for the client at list index `cidx`
(`client in self.master_windows` iff `cidx < master_length`). -/
def configureSpecificTall (s : MT) (r : Rect) (cidx : ℕ) : PlaceArgs :=
  let widthMaster : ℤ := pyInt ((r.width : ℚ) * s.ratio)
  let widthSlave : ℤ := r.width - widthMaster
  let xpos0 : ℤ :=
    if s.align = 0 then
      if (cidx : ℤ) < s.masterLength then r.x else r.x + widthMaster
    else
      if (cidx : ℤ) < s.masterLength then r.x + widthSlave - s.margin else r.x
  if (cidx : ℤ) < s.masterLength then
    -- master client
    let pos : ℤ := (cidx : ℤ)
    if s.orientation = 0 then
      let height := Int.fdiv r.height s.masterLength
      { x := xpos0, y := r.y + pos * height, w := widthMaster, h := height,
        bw := s.borderWidth,
        mTop := s.margin, mRight := 2 * s.borderWidth,
        mBottom := s.margin + 2 * s.borderWidth, mLeft := s.margin }
    else
      let width := Int.fdiv widthMaster s.masterLength
      let xpos := if s.align = 0 then r.x + pos * width else r.width - (pos + 1) * width
      { x := xpos, y := r.y, w := width, h := r.height,
        bw := s.borderWidth,
        mTop := s.margin, mRight := 2 * s.borderWidth,
        mBottom := s.margin + 2 * s.borderWidth, mLeft := s.margin }
  else
    -- slave client
    let nSlaves : ℤ := (s.clientCount : ℤ) - s.masterLength
    let height := Int.fdiv r.height nSlaves
    let sidx : ℤ := (cidx : ℤ) - s.masterLength
    let ypos := r.y + sidx * height
    { x := xpos0,
      y := (if 1 < cidx then ypos - s.margin else ypos),
      w := widthSlave - 2 * s.borderWidth,
      h := (if 1 < cidx then height + s.margin else height) - 2 * s.borderWidth,
      bw := s.borderWidth,
      mTop := s.margin, mRight := s.margin, mBottom := s.margin, mLeft := s.margin }

/-- `MonadWide._configure_specific` for the client at list index `cidx`. -/
def configureSpecificWide (s : MT) (r : Rect) (cidx : ℕ) : PlaceArgs :=
  let heightMaster : ℤ := pyInt ((r.height : ℚ) * s.ratio)
  let heightSlave : ℤ := r.height - heightMaster
  let ypos0 : ℤ :=
    if s.align = 0 then
      if (cidx : ℤ) < s.masterLength then r.y else r.y + heightMaster
    else
      if (cidx : ℤ) < s.masterLength then r.y + heightSlave - s.margin else r.y
  if (cidx : ℤ) < s.masterLength then
    -- master client
    let pos : ℤ := (cidx : ℤ)
    if s.orientation = 0 then
      let width := Int.fdiv r.width s.masterLength
      { x := r.x + pos * width, y := ypos0, w := width, h := heightMaster,
        bw := s.borderWidth,
        mTop := s.margin, mRight := s.margin + 2 * s.borderWidth,
        mBottom := 2 * s.borderWidth, mLeft := s.margin }
    else
      let height := Int.fdiv heightMaster s.masterLength
      let ypos := if s.align = 0 then r.y + pos * height
                  else (r.y + heightSlave + heightMaster) - (pos + 1) * height
      { x := r.x, y := ypos, w := r.width, h := height,
        bw := s.borderWidth,
        mTop := s.margin, mRight := s.margin + 2 * s.borderWidth,
        mBottom := 2 * s.borderWidth, mLeft := s.margin }
  else
    -- slave client
    let nSlaves : ℤ := (s.clientCount : ℤ) - s.masterLength
    let width := Int.fdiv r.width nSlaves
    let sidx : ℤ := (cidx : ℤ) - s.masterLength
    let xpos := r.x + sidx * width
    { x := (if 1 < cidx then xpos - s.margin else xpos),
      y := ypos0,
      w := (if 1 < cidx then width + s.margin else width) - 2 * s.borderWidth,
      h := heightSlave - 2 * s.borderWidth,
      bw := s.borderWidth,
      mTop := s.margin, mRight := s.margin, mBottom := s.margin, mLeft := s.margin }

/-- The entry steps of `MonadTall.configure`: store the screen rect, then run
a normalize pass when `relative_sizes` is empty or `do_normalize` is set. -/
def configureNorm (s : MT) (r : Rect) : MT :=
  let s1 := { s with screenRect := some r }
  if s1.relativeSizes.isEmpty || s1.doNormalize then cmdNormalizeState s1 else s1

/-- `MonadTall.configure(client, screen_rect)` for the client at index `cidx`
(an index `≥ clientCount` stands for a client the layout does not track, which
the source hides).  The source first stores the screen rect, then normalizes
when `relative_sizes` is empty or `do_normalize` is set, then branches. -/
def configure (s : MT) (r : Rect) (cidx : ℕ) : ConfigResult :=
  let s2 := configureNorm s r
  if s2.clientCount = 0 ∨ ¬ cidx < s2.clientCount then .hidden
  else if s2.clientCount = 1 ∨ s2.maximized then
    if cidx = s2.focused then
      .placed { x := r.x, y := r.y,
                w := r.width - 2 * s2.singleBorderWidth,
                h := r.height - 2 * s2.singleBorderWidth,
                bw := s2.singleBorderWidth,
                mTop := s2.singleMargin, mRight := s2.singleMargin,
                mBottom := s2.singleMargin, mLeft := s2.singleMargin }
    else .hidden
  else .placed (configureSpecificTall s2 r cidx)

/-! ### Resize machinery (`shrink` / `grow` helpers of `MonadTall`)

These operate on the `relative_sizes` list; `H` is `self.screen_rect.height`
(the divisor of `_get_relative_size_from_absolute` and the factor of
`_get_absolute_size_from_relative`) and `minS` is `self.min_slave_size`. -/

/-- `MonadTall._get_absolute_size_from_relative`: `int(rel * height)`. -/
def absSize (H : ℚ) (q : ℚ) : ℤ := pyInt (q * H)

/-- `MonadTall.get_shrink_margin(cidx)`. -/
def getShrinkMargin (H : ℚ) (minS : ℤ) (rel : List ℚ) (c : ℕ) : ℤ :=
  max 0 (absSize H (rel.getD c 0) - minS)

/-- `MonadTall.shrink(cidx, amt)`: shrink entry `c` by at most its margin;
returns the updated list and the amount that could not be applied. -/
def shrink (H : ℚ) (minS : ℤ) (rel : List ℚ) (c : ℕ) (amt : ℚ) : List ℚ × ℚ :=
  if (getShrinkMargin H minS rel c : ℚ) < amt then
    (rel.set c (rel.getD c 0 - (getShrinkMargin H minS rel c : ℚ) / H),
      amt - (getShrinkMargin H minS rel c : ℚ))
  else
    (rel.set c (rel.getD c 0 - amt / H), 0)

/-- The sequential loop shared by `shrink_up` and `shrink_down`: visit the
indices in order, each time shrinking by whatever is still unapplied
(`left -= left - self.shrink(idx, left)`). -/
def shrinkSeq (H : ℚ) (minS : ℤ) (L : List ℕ) (rel : List ℚ) (amt : ℚ) :
    List ℚ × ℚ :=
  L.foldl (fun p idx => shrink H minS p.1 idx p.2) (rel, amt)

/-- The equal-share loop shared by `shrink_up_shared` and
`shrink_down_shared`: shrink every index by `per` and deduct what was applied
(`left -= per_amt - self.shrink(idx, per_amt)`). -/
def shrinkShared (H : ℚ) (minS : ℤ) (per : ℚ) (L : List ℕ) (rel : List ℚ)
    (amt : ℚ) : List ℚ × ℚ :=
  L.foldl (fun p idx =>
    ((shrink H minS p.1 idx per).1, p.2 - (per - (shrink H minS p.1 idx per).2)))
    (rel, amt)

/-- `MonadTall.shrink_up(cidx, amt)`. -/
def shrinkUp (H : ℚ) (minS : ℤ) (rel : List ℚ) (cidx : ℕ) (amt : ℚ) :
    List ℚ × ℚ :=
  shrinkSeq H minS (List.range cidx) rel amt

/-- `MonadTall.shrink_up_shared(cidx, amt)`: equal shares of `amt / cidx`
over the clients above, then a `shrink_up` pass with the left-over. -/
def shrinkUpShared (H : ℚ) (minS : ℤ) (rel : List ℚ) (cidx : ℕ) (amt : ℚ) :
    List ℚ × ℚ :=
  let per := amt / (cidx : ℚ)
  let p := shrinkShared H minS per (List.range cidx) rel amt
  shrinkUp H minS p.1 cidx p.2

/-- `MonadTall.shrink_down(cidx, amt)`. -/
def shrinkDown (H : ℚ) (minS : ℤ) (rel : List ℚ) (cidx : ℕ) (amt : ℚ) :
    List ℚ × ℚ :=
  shrinkSeq H minS (List.range' (cidx + 1) (rel.length - (cidx + 1))) rel amt

/-- `MonadTall.shrink_down_shared(cidx, amt)`: equal shares of
`amt / (len(relative_sizes) - 1 - cidx)` over the clients below, then a
`shrink_down` pass with the left-over. -/
def shrinkDownShared (H : ℚ) (minS : ℤ) (rel : List ℚ) (cidx : ℕ) (amt : ℚ) :
    List ℚ × ℚ :=
  let per := amt / ((rel.length : ℚ) - 1 - (cidx : ℚ))
  let p := shrinkShared H minS per (List.range' (cidx + 1) (rel.length - (cidx + 1))) rel amt
  shrinkDown H minS p.1 cidx p.2

/-- `MonadTall.grow(cidx, amt)`. -/
def grow (H : ℚ) (rel : List ℚ) (c : ℕ) (amt : ℚ) : List ℚ :=
  rel.set c (rel.getD c 0 + amt / H)

/-- `MonadTall.grow_up_shared(cidx, amt)`. -/
def growUpShared (H : ℚ) (rel : List ℚ) (cidx : ℕ) (amt : ℚ) : List ℚ :=
  let per := amt / (cidx : ℚ)
  (List.range cidx).foldl (fun l idx => grow H l idx per) rel

/-- `MonadTall.grow_down_shared(cidx, amt)`. -/
def growDownShared (H : ℚ) (rel : List ℚ) (cidx : ℕ) (amt : ℚ) : List ℚ :=
  let per := amt / ((rel.length : ℚ) - 1 - (cidx : ℚ))
  (List.range' (cidx + 1) (rel.length - (cidx + 1))).foldl
    (fun l idx => grow H l idx per) rel

/-- `self.screen_rect.height` as a rational (the states the resize commands
run in always carry a rect; `0` is a junk value for the `None` case). -/
def screenHeightQ (s : MT) : ℚ :=
  match s.screenRect with
  | some r => (r.height : ℚ)
  | none => 0

/-- `MonadTall._grow_slave(amt)`. -/
def growSlave (s : MT) (amt : ℚ) : MT :=
  let H := screenHeightQ s
  let minS := s.minSlaveSize
  let half := amt / 2
  let rel := s.relativeSizes
  let res : List ℚ × ℚ :=
    if s.focused = 1 then
      -- first slave: only shrink downwards; `left = amt - (amt - returned)`
      let p := shrinkDownShared H minS rel 0 amt
      (p.1, amt - (amt - p.2))
    else if s.focused = s.clientCount - 1 then
      -- last slave: only shrink upwards
      let p := shrinkUp H minS rel (rel.length - 1) amt
      (p.1, amt - (amt - p.2))
    else
      -- middle slave: shrink up and down, each asked for `half` twice
      let idx := s.focused - 1
      let p1 := shrinkUpShared H minS rel idx half
      let l1 := amt - (half - p1.2)
      let p2 := shrinkDownShared H minS p1.1 idx half
      let l2 := l1 - (half - p2.2)
      let p3 := shrinkUpShared H minS p2.1 idx half
      let l3 := l2 - (half - p3.2)
      let p4 := shrinkDownShared H minS p3.1 idx half
      (p4.1, l3 - (half - p4.2))
  let diff := amt - res.2
  { s with relativeSizes :=
      res.1.set (s.focused - 1) (res.1.getD (s.focused - 1) 0 + diff / H) }

/-- `MonadTall._shrink_slave(amt)`: the clamp reads the host-reported
`client.height` of the focused window, not the tracked relative size. -/
def shrinkSlave (s : MT) (amt : ℚ) : MT :=
  let H := screenHeightQ s
  let ch := s.clientHeights.getD s.focused 0
  let change := if ch - amt < (s.minSlaveSize : ℚ) then ch - (s.minSlaveSize : ℚ) else amt
  let half := change / 2
  let rel :=
    if s.focused = 1 then
      growDownShared H s.relativeSizes 0 change
    else if s.focused = s.clientCount - 1 then
      growUpShared H s.relativeSizes (s.relativeSizes.length - 1) change
    else
      growDownShared H (growUpShared H s.relativeSizes (s.focused - 1) half)
        (s.focused - 1) half
  { s with relativeSizes :=
      rel.set (s.focused - 1) (rel.getD (s.focused - 1) 0 - change / H) }

/-- `MonadTall.cmd_grow` (state part). -/
def cmdGrow (s : MT) : MT :=
  if s.focused = 0 then
    { s with ratio := min s.maxRatio (s.ratio + s.changeRatio) }
  else if s.clientCount = 2 then
    { s with ratio := max s.minRatio (s.ratio - s.changeRatio) }
  else growSlave s s.changeSize

/-- `MonadTall.cmd_shrink` (state part). -/
def cmdShrink (s : MT) : MT :=
  if s.focused = 0 then
    { s with ratio := max s.minRatio (s.ratio - s.changeRatio) }
  else if s.clientCount = 2 then
    { s with ratio := min s.maxRatio (s.ratio + s.changeRatio) }
  else shrinkSlave s s.changeSize

/-- A user interaction sequence: before each `cmd_grow` the focus may have
been moved to any client index. -/
def growFocusSeq (s : MT) (ops : List ℕ) : MT :=
  ops.foldl (fun t f => cmdGrow { t with focused := f }) s

/-- The minimum-slave-size floor: every tracked relative size maps to an
absolute size of at least `min_slave_size`. -/
def slaveFloorInv (H : ℚ) (minS : ℤ) (rel : List ℚ) : Prop :=
  ∀ q ∈ rel, minS ≤ absSize H q

instance (H : ℚ) (minS : ℤ) (rel : List ℚ) : Decidable (slaveFloorInv H minS rel) :=
  List.decidableBAll _ rel

/-! ### Geometric swap (`cmd_swap_left` / `cmd_swap_right`) -/

/-- Window coordinates as read by the swap commands (`win.x`, `win.y`,
matching `c.info()["x"]`, `c.info()["y"]`). -/
structure SwapState where
  wins : List (ℤ × ℤ)
  cur : ℕ
deriving DecidableEq

/-- Squared Euclidean distance; `math.hypot` orders candidates exactly as the
squared distance does, so `min(..., key=hypot)` is `min` by this key. -/
def dist2 (x y : ℤ) (c : ℤ × ℤ) : ℤ := (c.1 - x) ^ 2 + (c.2 - y) ^ 2

/-- `MonadTall._get_closest(x, y, clients)`: Python `min` over the candidate
list (first minimum wins); on an empty sequence `min` raises `ValueError`,
embedded as `none`. -/
def getClosest (x y : ℤ) : List (ℤ × ℤ) → Option (ℤ × ℤ)
  | [] => none
  | c :: cs =>
      some (cs.foldl (fun best d => if dist2 x y d < dist2 x y best then d else best) c)

/-- `ClientList.swap` on the positions of the current window and the target
(identified by its first occurrence, as qtile looks windows up by identity). -/
def swapWins (s : SwapState) (target : ℤ × ℤ) : SwapState :=
  let win := s.wins.getD s.cur (0, 0)
  let j := s.wins.indexOf target
  { s with wins := (s.wins.set s.cur target).set j win }

/-- `MonadTall.cmd_swap_left`: `none` is the `ValueError` Python's `min`
raises when no client lies strictly to the left. -/
def cmdSwapLeft (s : SwapState) : Option SwapState :=
  let win := s.wins.getD s.cur (0, 0)
  let candidates := s.wins.filter (fun c => c.1 < win.1)
  match getClosest win.1 win.2 candidates with
  | none => none
  | some t => some (swapWins s t)

/-- `MonadTall.cmd_swap_right`. -/
def cmdSwapRight (s : SwapState) : Option SwapState :=
  let win := s.wins.getD s.cur (0, 0)
  let candidates := s.wins.filter (fun c => win.1 < c.1)
  match getClosest win.1 win.2 candidates with
  | none => none
  | some t => some (swapWins s t)

/-! ### Concrete layout states used to test the operations -/

/-- A 1000x1000 screen at the origin. -/
def rectA : Rect := ⟨0, 0, 1000, 1000⟩

/-- A `MonadTall` layout in its shipped default configuration, holding three
clients (one master, two slaves), focus on the first slave, after a reflow on
`rectA` (each slave was placed `1000 // 2 - 2*2 = 496` pixels tall). -/
def baseState : MT :=
  { clientCount := 3, focused := 1, masterLength := 1, ratio := 1/2, align := 0,
    orientation := 0, maximized := false, relativeSizes := [1/2, 1/2],
    doNormalize := false, screenRect := some rectA,
    minSlaveSize := 85, changeSize := 20, changeRatio := 1/20,
    minRatio := 1/4, maxRatio := 3/4, borderWidth := 2, singleBorderWidth := 2,
    singleMargin := 0, margin := 0, clientHeights := [496, 496, 496] }

/-- Three clients whose slaves hold a 1:3 size vector (reachable via grows). -/
def stateC1 : MT :=
  { baseState with
    relativeSizes := [1/4, 3/4] }

/-- Three clients; the first slave's tracked size maps to 90 pixels, just
above the 85-pixel minimum, while its host-reported height is 496. -/
def stateC2 : MT :=
  { baseState with
    relativeSizes := [9/100, 91/100] }

/-- Five clients, focus on the middle slave (index 2 of 0..4), equal vector. -/
def stateC3 : MT :=
  { baseState with
    clientCount := 5, focused := 2, relativeSizes := [1/4, 1/4, 1/4, 1/4],
    clientHeights := [0, 246, 246, 246, 246] }

/-- A layout that was flipped to the right and to horizontal master stacking. -/
def stateC4 : MT :=
  { baseState with
    orientation := 1, align := 1, ratio := 7/10 }

/-- Two windows side by side, the left one focused: nothing lies to its left. -/
def swapA : SwapState := { wins := [(0, 0), (100, 0)], cur := 0 }

/-- Two windows side by side, the right one focused: nothing lies to its right. -/
def swapB : SwapState := { wins := [(0, 0), (100, 0)], cur := 1 }

/-- A single client. -/
def stateC6 : MT :=
  { baseState with
    clientCount := 1 }

/-- Four clients with the `maximized` flag set and focus on client 2. -/
def stateC7 : MT :=
  { baseState with
    clientCount := 4, maximized := true, focused := 2,
    relativeSizes := [1/3, 1/3, 1/3], clientHeights := [0, 0, 0, 0] }

/-- Two masters stacked along the split axis (`orientation = 1`) with an odd
master band width `int(1000 * 0.501) = 501`. -/
def stateC8 : MT :=
  { baseState with
    clientCount := 3, masterLength := 2, orientation := 1, ratio := 501/1000,
    relativeSizes := [1/2] }

/-- Two masters in the default orientation with the same odd band width. -/
def stateC8v : MT :=
  { baseState with
    clientCount := 4, masterLength := 2, ratio := 501/1000 }

/-- Four clients of which two are masters: two slave windows. -/
def stateC9 : MT :=
  { baseState with
    clientCount := 4, masterLength := 2 }

/-- A layout that has never been given a screen rectangle. -/
def stateC10 : MT :=
  { baseState with
    screenRect := none, doNormalize := true }

/-! ### Arithmetic facts about `pyInt` -/

theorem pyInt_mono {q q' : ℚ} (h : q ≤ q') : pyInt q ≤ pyInt q' := by
  unfold pyInt
  split_ifs with h1 h2 h2
  · exact Int.ceil_mono h
  · calc ⌈q⌉ ≤ 0 := Int.ceil_le.mpr (by exact_mod_cast h1.le)
    _ ≤ ⌊q'⌋ := Int.floor_nonneg.mpr (not_lt.mp h2)
  · exact absurd (h.trans_lt h2) h1
  · exact Int.floor_mono h

theorem pyInt_sub_intCast_le {q : ℚ} {k : ℤ} (hk : 0 ≤ k) :
    pyInt q - k ≤ pyInt (q - k) := by
  unfold pyInt
  split_ifs with h1 h2 h2
  · rw [Int.ceil_sub_int]
  · exfalso
    exact h2 (sub_lt_iff_lt_add.mpr (h1.trans_le (le_add_of_nonneg_right (by exact_mod_cast hk))))
  · rw [Int.ceil_sub_int]
    exact sub_le_sub_right (Int.floor_le_ceil q) k
  · rw [Int.floor_sub_int]

theorem pyInt_nonneg {q : ℚ} (h : 0 ≤ q) : 0 ≤ pyInt q := by
  unfold pyInt
  rw [if_neg (not_lt.mpr h)]
  exact Int.floor_nonneg.mpr h

/-! ### Basic behaviour of `shrink` and its folds -/

theorem shrink_length (H : ℚ) (minS : ℤ) (rel : List ℚ) (c : ℕ) (amt : ℚ) :
    (shrink H minS rel c amt).1.length = rel.length := by
  unfold shrink
  split_ifs <;> simp

theorem shrink_snd (H : ℚ) (minS : ℤ) (rel : List ℚ) (c : ℕ) {amt : ℚ}
    (ha : 0 ≤ amt) :
    0 ≤ (shrink H minS rel c amt).2 ∧ (shrink H minS rel c amt).2 ≤ amt := by
  unfold shrink
  have hm : (0 : ℚ) ≤ (getShrinkMargin H minS rel c : ℤ) := by
    exact_mod_cast le_max_left 0 _
  split_ifs with h
  · exact ⟨by linarith [h.le], by linarith⟩
  · exact ⟨le_refl 0, ha⟩

/-- The value written by `shrink` never exceeds the previous value. -/
theorem shrink_getD_le (H : ℚ) (minS : ℤ) (rel : List ℚ) (c : ℕ) {amt : ℚ}
    (hH : 0 < H) (ha : 0 ≤ amt) (j : ℕ) :
    (shrink H minS rel c amt).1.getD j 0 ≤ rel.getD j 0 := by
  have hm : (0 : ℚ) ≤ (getShrinkMargin H minS rel c : ℤ) := by
    exact_mod_cast le_max_left 0 _
  unfold shrink
  by_cases hj : j = c
  · subst hj
    by_cases hlen : j < rel.length
    · split_ifs with h <;>
        · simp only [List.getD_eq_getElem?_getD, List.getElem?_set_self hlen,
            Option.getD_some, List.getElem?_eq_getElem hlen]
          have hsub : (0 : ℚ) ≤ (getShrinkMargin H minS rel j : ℚ) / H := by positivity
          have hsub' : (0 : ℚ) ≤ amt / H := by positivity
          simp only [List.getD_eq_getElem?_getD, List.getElem?_eq_getElem hlen,
            Option.getD_some] at *
          linarith
    · split_ifs with h
      · rw [List.set_eq_of_length_le (le_of_not_lt hlen)]
      · rw [List.set_eq_of_length_le (le_of_not_lt hlen)]
  · split_ifs with h <;>
      simp [List.getD_eq_getElem?_getD, List.getElem?_set_ne (Ne.symm hj)]

theorem shrink_getD_ne (H : ℚ) (minS : ℤ) (rel : List ℚ) (c : ℕ) (amt : ℚ)
    {j : ℕ} (hj : j ≠ c) :
    (shrink H minS rel c amt).1.getD j 0 = rel.getD j 0 := by
  unfold shrink
  split_ifs <;> simp [List.getD_eq_getElem?_getD, List.getElem?_set_ne (Ne.symm hj)]

theorem shrink_inv (H : ℚ) (minS : ℤ) (rel : List ℚ) (c : ℕ) {amt : ℚ}
    (hH : 0 < H) (ha : 0 ≤ amt) (hinv : slaveFloorInv H minS rel) :
    slaveFloorInv H minS (shrink H minS rel c amt).1 := by
  by_cases hlen : c < rel.length
  · have hmem : rel.getD c 0 ∈ rel := by
      rw [List.getD_eq_getElem?_getD, List.getElem?_eq_getElem hlen]
      exact List.getElem_mem hlen
    have hbase : minS ≤ absSize H (rel.getD c 0) := hinv _ hmem
    have hmargin : getShrinkMargin H minS rel c = absSize H (rel.getD c 0) - minS := by
      unfold getShrinkMargin
      exact max_eq_right (by omega)
    have hkey : ∀ x : ℚ, 0 ≤ x → (x : ℚ) ≤ (getShrinkMargin H minS rel c : ℤ) →
        minS ≤ absSize H (rel.getD c 0 - x / H) := by
      intro x hx0 hxm
      have hH' : H ≠ 0 := ne_of_gt hH
      have hexp : (rel.getD c 0 - x / H) * H = rel.getD c 0 * H - x := by
        field_simp
      unfold absSize
      rw [hexp]
      have hmono : pyInt (rel.getD c 0 * H - (getShrinkMargin H minS rel c : ℤ)) ≤
          pyInt (rel.getD c 0 * H - x) := by
        apply pyInt_mono
        have : (x : ℚ) ≤ ((getShrinkMargin H minS rel c : ℤ) : ℚ) := hxm
        linarith
      have hlow : minS ≤ pyInt (rel.getD c 0 * H - (getShrinkMargin H minS rel c : ℤ)) := by
        have := pyInt_sub_intCast_le (q := rel.getD c 0 * H)
          (k := getShrinkMargin H minS rel c) (le_max_left 0 _)
        have habs : pyInt (rel.getD c 0 * H) - getShrinkMargin H minS rel c = minS := by
          rw [hmargin]; unfold absSize at *; omega
        omega
      omega
    intro q hq
    unfold shrink at hq
    have hm0 : (0 : ℚ) ≤ (getShrinkMargin H minS rel c : ℤ) := by
      exact_mod_cast le_max_left 0 _
    split_ifs at hq with h
    · rcases List.mem_or_eq_of_mem_set hq with hmem' | rfl
      · exact hinv _ hmem'
      · exact hkey _ hm0 (le_refl _)
    · rcases List.mem_or_eq_of_mem_set hq with hmem' | rfl
      · exact hinv _ hmem'
      · exact hkey _ ha (not_lt.mp h)
  · intro q hq
    unfold shrink at hq
    rw [List.set_eq_of_length_le (le_of_not_lt hlen)] at hq
    split_ifs at hq
    · exact hinv _ hq
    · rw [List.set_eq_of_length_le (le_of_not_lt hlen)] at hq
      exact hinv _ hq

theorem shrink_sum (H : ℚ) (minS : ℤ) (rel : List ℚ) (c : ℕ) (amt : ℚ)
    (hc : c < rel.length) (_hH : H ≠ 0) :
    (shrink H minS rel c amt).1.sum =
      rel.sum - (amt - (shrink H minS rel c amt).2) / H := by
  have hgd : rel.getD c 0 = rel[c] := by
    simp [List.getD_eq_getElem?_getD, List.getElem?_eq_getElem hc]
  unfold shrink
  split_ifs with h <;>
    · simp only [List.sum_set', hc, dif_pos, hgd]
      ring

theorem shrinkSeq_cons (H : ℚ) (minS : ℤ) (i : ℕ) (L : List ℕ) (rel : List ℚ)
    (amt : ℚ) :
    shrinkSeq H minS (i :: L) rel amt =
      shrinkSeq H minS L (shrink H minS rel i amt).1 (shrink H minS rel i amt).2 := rfl

theorem shrinkSeq_length (H : ℚ) (minS : ℤ) (L : List ℕ) :
    ∀ rel amt, (shrinkSeq H minS L rel amt).1.length = rel.length := by
  induction L with
  | nil => intro rel amt; rfl
  | cons i L ih => intro rel amt; rw [shrinkSeq_cons, ih, shrink_length]

theorem shrinkSeq_snd (H : ℚ) (minS : ℤ) (L : List ℕ) :
    ∀ rel {amt : ℚ}, 0 ≤ amt →
      0 ≤ (shrinkSeq H minS L rel amt).2 ∧ (shrinkSeq H minS L rel amt).2 ≤ amt := by
  induction L with
  | nil => intro rel amt ha; exact ⟨ha, le_refl _⟩
  | cons i L ih =>
    intro rel amt ha
    rw [shrinkSeq_cons]
    obtain ⟨h1, h2⟩ := shrink_snd H minS rel i ha
    obtain ⟨h3, h4⟩ := ih _ h1
    exact ⟨h3, h4.trans h2⟩

theorem shrinkSeq_inv (H : ℚ) (minS : ℤ) (L : List ℕ) (hH : 0 < H) :
    ∀ rel {amt : ℚ}, 0 ≤ amt → slaveFloorInv H minS rel →
      slaveFloorInv H minS (shrinkSeq H minS L rel amt).1 := by
  induction L with
  | nil => intro rel amt _ hinv; exact hinv
  | cons i L ih =>
    intro rel amt ha hinv
    rw [shrinkSeq_cons]
    exact ih _ (shrink_snd H minS rel i ha).1 (shrink_inv H minS rel i hH ha hinv)

theorem shrinkSeq_getD_le (H : ℚ) (minS : ℤ) (L : List ℕ) (hH : 0 < H) :
    ∀ rel {amt : ℚ}, 0 ≤ amt → ∀ j,
      (shrinkSeq H minS L rel amt).1.getD j 0 ≤ rel.getD j 0 := by
  induction L with
  | nil => intro rel amt _ j; exact le_refl _
  | cons i L ih =>
    intro rel amt ha j
    rw [shrinkSeq_cons]
    exact (ih _ (shrink_snd H minS rel i ha).1 j).trans
      (shrink_getD_le H minS rel i hH ha j)

theorem shrinkSeq_getD_ne (H : ℚ) (minS : ℤ) (L : List ℕ) :
    ∀ rel amt {j : ℕ}, j ∉ L →
      (shrinkSeq H minS L rel amt).1.getD j 0 = rel.getD j 0 := by
  induction L with
  | nil => intro rel amt j _; rfl
  | cons i L ih =>
    intro rel amt j hj
    rw [shrinkSeq_cons, ih _ _ (fun h => hj (List.mem_cons_of_mem i h)),
      shrink_getD_ne H minS rel i amt (fun h => hj (by rw [h]; exact List.mem_cons_self i L))]

theorem shrinkSeq_sum (H : ℚ) (minS : ℤ) (L : List ℕ) (hH : H ≠ 0) :
    ∀ rel amt, (∀ i ∈ L, i < rel.length) →
      (shrinkSeq H minS L rel amt).1.sum =
        rel.sum - (amt - (shrinkSeq H minS L rel amt).2) / H := by
  induction L with
  | nil => intro rel amt _; simp [shrinkSeq]
  | cons i L ih =>
    intro rel amt hL
    rw [shrinkSeq_cons]
    have hi : i < rel.length := hL i (List.mem_cons_self i L)
    have hlen : (shrink H minS rel i amt).1.length = rel.length := shrink_length ..
    rw [ih _ _ (fun k hk => hlen ▸ hL k (List.mem_cons_of_mem i hk)),
      shrink_sum H minS rel i amt hi hH]
    ring

theorem shrinkShared_cons (H : ℚ) (minS : ℤ) (per : ℚ) (i : ℕ) (L : List ℕ)
    (rel : List ℚ) (amt : ℚ) :
    shrinkShared H minS per (i :: L) rel amt =
      shrinkShared H minS per L (shrink H minS rel i per).1
        (amt - (per - (shrink H minS rel i per).2)) := rfl

theorem shrinkShared_length (H : ℚ) (minS : ℤ) (per : ℚ) (L : List ℕ) :
    ∀ rel amt, (shrinkShared H minS per L rel amt).1.length = rel.length := by
  induction L with
  | nil => intro rel amt; rfl
  | cons i L ih => intro rel amt; rw [shrinkShared_cons, ih, shrink_length]

theorem shrinkShared_snd (H : ℚ) (minS : ℤ) {per : ℚ} (L : List ℕ)
    (hper : 0 ≤ per) :
    ∀ rel amt, (shrinkShared H minS per L rel amt).2 ≤ amt ∧
      amt - L.length * per ≤ (shrinkShared H minS per L rel amt).2 := by
  induction L with
  | nil => intro rel amt; simp [shrinkShared]
  | cons i L ih =>
    intro rel amt
    rw [shrinkShared_cons]
    obtain ⟨h1, h2⟩ := shrink_snd H minS rel i hper
    obtain ⟨h3, h4⟩ := ih (shrink H minS rel i per).1 (amt - (per - (shrink H minS rel i per).2))
    constructor
    · refine h3.trans ?_
      linarith
    · refine le_trans ?_ h4
      simp only [List.length_cons]
      push_cast
      nlinarith [h2]

theorem shrinkShared_inv (H : ℚ) (minS : ℤ) {per : ℚ} (L : List ℕ) (hH : 0 < H)
    (hper : 0 ≤ per) :
    ∀ rel amt, slaveFloorInv H minS rel →
      slaveFloorInv H minS (shrinkShared H minS per L rel amt).1 := by
  induction L with
  | nil => intro rel amt hinv; exact hinv
  | cons i L ih =>
    intro rel amt hinv
    rw [shrinkShared_cons]
    exact ih _ _ (shrink_inv H minS rel i hH hper hinv)

theorem shrinkShared_getD_le (H : ℚ) (minS : ℤ) {per : ℚ} (L : List ℕ)
    (hH : 0 < H) (hper : 0 ≤ per) :
    ∀ rel amt j, (shrinkShared H minS per L rel amt).1.getD j 0 ≤ rel.getD j 0 := by
  induction L with
  | nil => intro rel amt j; exact le_refl _
  | cons i L ih =>
    intro rel amt j
    rw [shrinkShared_cons]
    exact (ih _ _ j).trans (shrink_getD_le H minS rel i hH hper j)

theorem shrinkShared_getD_ne (H : ℚ) (minS : ℤ) (per : ℚ) (L : List ℕ) :
    ∀ rel amt {j : ℕ}, j ∉ L →
      (shrinkShared H minS per L rel amt).1.getD j 0 = rel.getD j 0 := by
  induction L with
  | nil => intro rel amt j _; rfl
  | cons i L ih =>
    intro rel amt j hj
    rw [shrinkShared_cons, ih _ _ (fun h => hj (List.mem_cons_of_mem i h)),
      shrink_getD_ne H minS rel i per (fun h => hj (by rw [h]; exact List.mem_cons_self i L))]

theorem shrinkShared_sum (H : ℚ) (minS : ℤ) (per : ℚ) (L : List ℕ) (hH : H ≠ 0) :
    ∀ rel amt, (∀ i ∈ L, i < rel.length) →
      (shrinkShared H minS per L rel amt).1.sum =
        rel.sum - (amt - (shrinkShared H minS per L rel amt).2) / H := by
  induction L with
  | nil => intro rel amt _; simp [shrinkShared]
  | cons i L ih =>
    intro rel amt hL
    rw [shrinkShared_cons]
    have hi : i < rel.length := hL i (List.mem_cons_self i L)
    have hlen : (shrink H minS rel i per).1.length = rel.length := shrink_length ..
    rw [ih _ _ (fun k hk => hlen ▸ hL k (List.mem_cons_of_mem i hk)),
      shrink_sum H minS rel i per hi hH]
    ring

/-! ### The `shrink_up_shared` / `shrink_down_shared` wrappers -/

theorem shrinkUpShared_basic (H : ℚ) (minS : ℤ) (rel : List ℚ) (cidx : ℕ)
    {amt : ℚ} (hH : 0 < H) (ha : 0 ≤ amt) :
    (slaveFloorInv H minS rel →
      slaveFloorInv H minS (shrinkUpShared H minS rel cidx amt).1) ∧
    0 ≤ (shrinkUpShared H minS rel cidx amt).2 ∧
    (shrinkUpShared H minS rel cidx amt).2 ≤ amt ∧
    (shrinkUpShared H minS rel cidx amt).1.length = rel.length ∧
    (∀ j, (shrinkUpShared H minS rel cidx amt).1.getD j 0 ≤ rel.getD j 0) ∧
    (∀ j, cidx ≤ j → (shrinkUpShared H minS rel cidx amt).1.getD j 0 = rel.getD j 0) := by
  have hper : 0 ≤ amt / (cidx : ℚ) := by positivity
  set per := amt / (cidx : ℚ) with hperdef
  have hp := shrinkShared_snd H minS (List.range cidx) hper rel amt
  have hcnt : ((List.range cidx).length : ℚ) * per = (cidx : ℚ) * per := by
    rw [List.length_range]
  have hp2nonneg : 0 ≤ (shrinkShared H minS per (List.range cidx) rel amt).2 := by
    rcases Nat.eq_zero_or_pos cidx with hc0 | hcpos
    · subst hc0
      simpa [shrinkShared] using ha
    · have : (cidx : ℚ) ≠ 0 := by positivity
      have := hp.2
      rw [List.length_range] at this
      rw [hperdef] at this
      rw [mul_div_cancel₀ amt ‹(cidx : ℚ) ≠ 0›] at this
      linarith
  have hseq := shrinkSeq_snd H minS (List.range cidx)
    (shrinkShared H minS per (List.range cidx) rel amt).1 hp2nonneg
  refine ⟨?_, ?_, ?_, ?_, ?_, ?_⟩
  · intro hinv
    exact shrinkSeq_inv H minS (List.range cidx) hH _ hp2nonneg
      (shrinkShared_inv H minS (List.range cidx) hH hper rel amt hinv)
  · exact hseq.1
  · exact hseq.2.trans (hp.1)
  · rw [shrinkUpShared, shrinkUp, shrinkSeq_length, shrinkShared_length]
  · intro j
    exact (shrinkSeq_getD_le H minS (List.range cidx) hH _ hp2nonneg j).trans
      (shrinkShared_getD_le H minS (List.range cidx) hH hper rel amt j)
  · intro j hj
    have hnot : j ∉ List.range cidx := by
      simp [List.mem_range]; omega
    rw [shrinkUpShared, shrinkUp, shrinkSeq_getD_ne H minS _ _ _ hnot,
      shrinkShared_getD_ne H minS _ _ _ _ hnot]

theorem shrinkUpShared_sum (H : ℚ) (minS : ℤ) (rel : List ℚ) (cidx : ℕ)
    (amt : ℚ) (hH : 0 < H) (hlen : cidx ≤ rel.length) :
    (shrinkUpShared H minS rel cidx amt).1.sum =
      rel.sum - (amt - (shrinkUpShared H minS rel cidx amt).2) / H := by
  have hH' : H ≠ 0 := ne_of_gt hH
  set per := amt / (cidx : ℚ)
  have hidx : ∀ i ∈ List.range cidx, i < rel.length := by
    intro i hi
    rw [List.mem_range] at hi
    omega
  have h1 := shrinkShared_sum H minS per (List.range cidx) hH' rel amt hidx
  have hlen1 : (shrinkShared H minS per (List.range cidx) rel amt).1.length = rel.length :=
    shrinkShared_length ..
  have hidx1 : ∀ i ∈ List.range cidx,
      i < (shrinkShared H minS per (List.range cidx) rel amt).1.length := by
    intro i hi; rw [hlen1]; exact hidx i hi
  have h2 := shrinkSeq_sum H minS (List.range cidx) hH' _
    (shrinkShared H minS per (List.range cidx) rel amt).2 hidx1
  rw [shrinkUpShared, shrinkUp]
  rw [h2, h1]
  ring

theorem shrinkDownShared_basic (H : ℚ) (minS : ℤ) (rel : List ℚ) (cidx : ℕ)
    {amt : ℚ} (hH : 0 < H) (ha : 0 ≤ amt) :
    (slaveFloorInv H minS rel →
      slaveFloorInv H minS (shrinkDownShared H minS rel cidx amt).1) ∧
    0 ≤ (shrinkDownShared H minS rel cidx amt).2 ∧
    (shrinkDownShared H minS rel cidx amt).2 ≤ amt ∧
    (shrinkDownShared H minS rel cidx amt).1.length = rel.length ∧
    (∀ j, (shrinkDownShared H minS rel cidx amt).1.getD j 0 ≤ rel.getD j 0) ∧
    (∀ j, j ≤ cidx → (shrinkDownShared H minS rel cidx amt).1.getD j 0 = rel.getD j 0) := by
  set n := rel.length - (cidx + 1) with hn
  set per := amt / ((rel.length : ℚ) - 1 - (cidx : ℚ)) with hperdef
  have hnot : ∀ {j : ℕ}, j ≤ cidx → j ∉ List.range' (cidx + 1) n := by
    intro j hj hmem
    rw [List.mem_range'] at hmem
    obtain ⟨i, _, hji⟩ := hmem
    omega
  rcases Nat.eq_zero_or_pos n with hn0 | hnpos
  · -- no clients below: both loops run over the empty range
    have hL : List.range' (cidx + 1) n = [] := by rw [hn0]; rfl
    have hfix : shrinkDownShared H minS rel cidx amt = (rel, amt) := by
      rw [shrinkDownShared, shrinkDown]
      rw [← hn, ← hperdef, hL]
      have : shrinkShared H minS per [] rel amt = (rel, amt) := rfl
      rw [this]
      have hlen' : rel.length - (cidx + 1) = 0 := hn0 ▸ hn ▸ rfl
      simp [shrinkSeq, hlen']
    rw [hfix]
    exact ⟨fun h => h, ha, le_refl _, rfl, fun j => le_refl _, fun j _ => rfl⟩
  · have hcl : cidx + 1 ≤ rel.length := by omega
    have hcast : ((rel.length : ℚ) - 1 - (cidx : ℚ)) = (n : ℚ) := by
      have : rel.length = cidx + 1 + n := by omega
      rw [this]
      push_cast
      ring
    have hper : 0 ≤ per := by
      rw [hperdef, hcast]
      positivity
    have hp := shrinkShared_snd H minS (List.range' (cidx + 1) n) hper rel amt
    have hp2nonneg : 0 ≤ (shrinkShared H minS per (List.range' (cidx + 1) n) rel amt).2 := by
      have hb := hp.2
      have hne : (n : ℚ) ≠ 0 := by positivity
      have hmul : ((List.range' (cidx + 1) n).length : ℚ) * per = amt := by
        rw [List.length_range', hperdef, hcast]
        exact mul_div_cancel₀ amt hne
      linarith
    have hlen1 : (shrinkShared H minS per (List.range' (cidx + 1) n) rel amt).1.length
        = rel.length := shrinkShared_length ..
    have hseq := shrinkSeq_snd H minS (List.range' (cidx + 1) n)
      (shrinkShared H minS per (List.range' (cidx + 1) n) rel amt).1 hp2nonneg
    have hunfold : shrinkDownShared H minS rel cidx amt =
        shrinkSeq H minS (List.range' (cidx + 1) n)
          (shrinkShared H minS per (List.range' (cidx + 1) n) rel amt).1
          (shrinkShared H minS per (List.range' (cidx + 1) n) rel amt).2 := by
      rw [shrinkDownShared, shrinkDown, ← hperdef, ← hn, hlen1, ← hn]
    rw [hunfold]
    refine ⟨?_, hseq.1, hseq.2.trans hp.1, ?_, ?_, ?_⟩
    · intro hinv
      exact shrinkSeq_inv H minS _ hH _ hp2nonneg
        (shrinkShared_inv H minS _ hH hper rel amt hinv)
    · rw [shrinkSeq_length, hlen1]
    · intro j
      exact (shrinkSeq_getD_le H minS _ hH _ hp2nonneg j).trans
        (shrinkShared_getD_le H minS _ hH hper rel amt j)
    · intro j hj
      rw [shrinkSeq_getD_ne H minS _ _ _ (hnot hj),
        shrinkShared_getD_ne H minS _ _ _ _ (hnot hj)]

theorem shrinkDownShared_sum (H : ℚ) (minS : ℤ) (rel : List ℚ) (cidx : ℕ)
    (amt : ℚ) (hH : 0 < H) :
    (shrinkDownShared H minS rel cidx amt).1.sum =
      rel.sum - (amt - (shrinkDownShared H minS rel cidx amt).2) / H := by
  have hH' : H ≠ 0 := ne_of_gt hH
  set n := rel.length - (cidx + 1) with hn
  set per := amt / ((rel.length : ℚ) - 1 - (cidx : ℚ)) with hperdef
  have hidx : ∀ i ∈ List.range' (cidx + 1) n, i < rel.length := by
    intro i hi
    rw [List.mem_range'] at hi
    obtain ⟨k, hk, hik⟩ := hi
    omega
  have h1 := shrinkShared_sum H minS per (List.range' (cidx + 1) n) hH' rel amt hidx
  have hlen1 : (shrinkShared H minS per (List.range' (cidx + 1) n) rel amt).1.length
      = rel.length := shrinkShared_length ..
  have hidx1 : ∀ i ∈ List.range' (cidx + 1) n,
      i < (shrinkShared H minS per (List.range' (cidx + 1) n) rel amt).1.length := by
    intro i hi; rw [hlen1]; exact hidx i hi
  have h2 := shrinkSeq_sum H minS (List.range' (cidx + 1) n) hH' _
    (shrinkShared H minS per (List.range' (cidx + 1) n) rel amt).2 hidx1
  have hunfold : shrinkDownShared H minS rel cidx amt =
      shrinkSeq H minS (List.range' (cidx + 1) n)
        (shrinkShared H minS per (List.range' (cidx + 1) n) rel amt).1
        (shrinkShared H minS per (List.range' (cidx + 1) n) rel amt).2 := by
    rw [shrinkDownShared, shrinkDown, ← hperdef, ← hn, hlen1, ← hn]
  rw [hunfold, h2, h1]
  ring

/-! ### The floor invariant through `_grow_slave` and `cmd_grow` -/

theorem floorInv_set_add (H : ℚ) (minS : ℤ) (rel : List ℚ) (i : ℕ) {d : ℚ}
    (hH : 0 < H) (hd : 0 ≤ d) (hinv : slaveFloorInv H minS rel) :
    slaveFloorInv H minS (rel.set i (rel.getD i 0 + d)) := by
  by_cases hlen : i < rel.length
  · intro q hq
    rcases List.mem_or_eq_of_mem_set hq with hm | rfl
    · exact hinv _ hm
    · have hmem : rel.getD i 0 ∈ rel := by
        rw [List.getD_eq_getElem?_getD, List.getElem?_eq_getElem hlen]
        exact List.getElem_mem hlen
      refine le_trans (hinv _ hmem) ?_
      unfold absSize
      exact pyInt_mono (by nlinarith)
  · rw [List.set_eq_of_length_le (le_of_not_lt hlen)]
    exact hinv

theorem growSlave_floor (s : MT) {amt : ℚ} (hH : 0 < screenHeightQ s)
    (ha : 0 ≤ amt)
    (hinv : slaveFloorInv (screenHeightQ s) s.minSlaveSize s.relativeSizes) :
    slaveFloorInv (screenHeightQ s) s.minSlaveSize (growSlave s amt).relativeSizes := by
  have hhalf : 0 ≤ amt / 2 := by positivity
  set H := screenHeightQ s with hHdef
  unfold growSlave
  simp only [← hHdef]
  split_ifs with h1 h2 <;> dsimp only
  · -- first slave
    obtain ⟨hi, hs0, hsa, _, _, _⟩ :=
      shrinkDownShared_basic H s.minSlaveSize s.relativeSizes 0 hH ha
    exact floorInv_set_add H s.minSlaveSize _ _ hH
      (div_nonneg (by linarith) hH.le) (hi hinv)
  · -- last slave
    have hup : (shrinkUp H s.minSlaveSize s.relativeSizes
        (s.relativeSizes.length - 1) amt).2 ≤ amt :=
      (shrinkSeq_snd H s.minSlaveSize (List.range (s.relativeSizes.length - 1))
        s.relativeSizes ha).2
    have hi : slaveFloorInv H s.minSlaveSize
        (shrinkUp H s.minSlaveSize s.relativeSizes
          (s.relativeSizes.length - 1) amt).1 :=
      shrinkSeq_inv H s.minSlaveSize (List.range (s.relativeSizes.length - 1)) hH
        s.relativeSizes ha hinv
    exact floorInv_set_add H s.minSlaveSize _ _ hH
      (div_nonneg (by linarith) hH.le) hi
  · -- middle slave
    obtain ⟨hi1, hs1a, hs1b, _, _, _⟩ :=
      shrinkUpShared_basic H s.minSlaveSize s.relativeSizes (s.focused - 1) hH hhalf
    obtain ⟨hi2, hs2a, hs2b, _, _, _⟩ :=
      shrinkDownShared_basic H s.minSlaveSize
        (shrinkUpShared H s.minSlaveSize s.relativeSizes (s.focused - 1) (amt / 2)).1
        (s.focused - 1) hH hhalf
    obtain ⟨hi3, hs3a, hs3b, _, _, _⟩ :=
      shrinkUpShared_basic H s.minSlaveSize
        (shrinkDownShared H s.minSlaveSize
          (shrinkUpShared H s.minSlaveSize s.relativeSizes (s.focused - 1) (amt / 2)).1
          (s.focused - 1) (amt / 2)).1 (s.focused - 1) hH hhalf
    obtain ⟨hi4, hs4a, hs4b, _, _, _⟩ :=
      shrinkDownShared_basic H s.minSlaveSize
        (shrinkUpShared H s.minSlaveSize
          (shrinkDownShared H s.minSlaveSize
            (shrinkUpShared H s.minSlaveSize s.relativeSizes (s.focused - 1) (amt / 2)).1
            (s.focused - 1) (amt / 2)).1 (s.focused - 1) (amt / 2)).1
        (s.focused - 1) hH hhalf
    exact floorInv_set_add H s.minSlaveSize _ _ hH
      (div_nonneg (by linarith) hH.le) (hi4 (hi3 (hi2 (hi1 hinv))))

theorem cmdGrow_floor (s : MT) (hH : 0 < screenHeightQ s)
    (ha : 0 ≤ s.changeSize)
    (hinv : slaveFloorInv (screenHeightQ s) s.minSlaveSize s.relativeSizes) :
    slaveFloorInv (screenHeightQ s) s.minSlaveSize (cmdGrow s).relativeSizes := by
  unfold cmdGrow
  split_ifs with h1 h2
  · exact hinv
  · exact hinv
  · exact growSlave_floor s hH ha hinv

theorem cmdGrow_fields (s : MT) :
    (cmdGrow s).screenRect = s.screenRect ∧
      (cmdGrow s).minSlaveSize = s.minSlaveSize ∧
      (cmdGrow s).changeSize = s.changeSize := by
  unfold cmdGrow growSlave
  split_ifs <;> exact ⟨rfl, rfl, rfl⟩

theorem getD_set_of_ne (l : List ℚ) (i j : ℕ) (v : ℚ) (h : j ≠ i) :
    (l.set i v).getD j 0 = l.getD j 0 := by
  simp [List.getD_eq_getElem?_getD, List.getElem?_set_ne (Ne.symm h)]

theorem getD_set_self_of_lt (l : List ℚ) (i : ℕ) (v : ℚ) (h : i < l.length) :
    (l.set i v).getD i 0 = v := by
  simp [List.getD_eq_getElem?_getD, List.getElem?_set_self h]

/-- C2 (amended): for every starting state whose slave sizes all map to at
least `min_slave_size` absolute pixels, every sequence of `cmd_grow`
invocations (each preceded by moving focus anywhere) keeps every slave's
absolute size at or above `min_slave_size` — the reclaiming side of the
resize machinery always checks `get_shrink_margin`.  (`cmd_shrink` does not
share this property: its clamp reads the host-reported window height, see the
counterexample.) -/
theorem grow_sequences_keep_min_slave_floor (ops : List ℕ) :
    ∀ s : MT, 0 < screenHeightQ s → 0 ≤ s.changeSize →
      slaveFloorInv (screenHeightQ s) s.minSlaveSize s.relativeSizes →
      slaveFloorInv (screenHeightQ s) s.minSlaveSize
        (growFocusSeq s ops).relativeSizes := by
  induction ops with
  | nil => intro s _ _ hinv; exact hinv
  | cons f ops ih =>
    intro s hH ha hinv
    have hH' : 0 < screenHeightQ { s with focused := f } := hH
    have hstep := cmdGrow_floor { s with focused := f } hH' ha hinv
    have hfields := cmdGrow_fields { s with focused := f }
    have hsc : screenHeightQ (cmdGrow { s with focused := f }) = screenHeightQ s := by
      unfold screenHeightQ
      rw [hfields.1]
    have hH2 : 0 < screenHeightQ (cmdGrow { s with focused := f }) := by
      rw [hsc]; exact hH
    have ha2 : 0 ≤ (cmdGrow { s with focused := f }).changeSize := by
      rw [hfields.2.2]; exact ha
    have hinv2 : slaveFloorInv (screenHeightQ (cmdGrow { s with focused := f }))
        (cmdGrow { s with focused := f }).minSlaveSize
        (cmdGrow { s with focused := f }).relativeSizes := by
      rw [hsc, hfields.2.1]; exact hstep
    have happ := ih (cmdGrow { s with focused := f }) hH2 ha2 hinv2
    rw [hsc, hfields.2.1] at happ
    exact happ

/-- C3 (amended): `cmd_grow` on a middle slave asks the slaves-above group
and the slaves-below group each for *half the requested amount twice over*
(up, down, up, down), each group splitting every request equally with
leftovers retried in order; consequently every other slave only shrinks, the
focused slave grows by exactly the total amount actually reclaimed (the
relative sizes sum is conserved), and that growth can reach `2 *` the
requested amount (bounded by it). -/
theorem cmdGrow_middle_slave_parts (s : MT) (hH : 0 < screenHeightQ s)
    (ha : 0 ≤ s.changeSize) (hf0 : ¬ s.focused = 0) (hc2 : ¬ s.clientCount = 2)
    (hf1 : ¬ s.focused = 1) (hfl : ¬ s.focused = s.clientCount - 1)
    (hlen : s.focused - 1 < s.relativeSizes.length) :
    (cmdGrow s).relativeSizes.sum = s.relativeSizes.sum ∧
    (∀ j, j ≠ s.focused - 1 →
      (cmdGrow s).relativeSizes.getD j 0 ≤ s.relativeSizes.getD j 0) ∧
    s.relativeSizes.getD (s.focused - 1) 0 ≤
      (cmdGrow s).relativeSizes.getD (s.focused - 1) 0 ∧
    (cmdGrow s).relativeSizes.getD (s.focused - 1) 0 ≤
      s.relativeSizes.getD (s.focused - 1) 0 +
        2 * s.changeSize / screenHeightQ s := by
  have hhalf : 0 ≤ s.changeSize / 2 := by positivity
  set H := screenHeightQ s with hHdef
  set amt := s.changeSize with hamt
  set idx := s.focused - 1 with hidx
  simp only [cmdGrow, growSlave, if_neg hf0, if_neg hc2, if_neg hf1, if_neg hfl,
    ← hHdef, ← hamt, ← hidx]
  set p1 := shrinkUpShared H s.minSlaveSize s.relativeSizes idx (amt / 2) with hp1
  set p2 := shrinkDownShared H s.minSlaveSize p1.1 idx (amt / 2) with hp2
  set p3 := shrinkUpShared H s.minSlaveSize p2.1 idx (amt / 2) with hp3
  set p4 := shrinkDownShared H s.minSlaveSize p3.1 idx (amt / 2) with hp4
  obtain ⟨_, hs1a, hs1b, hl1, hm1, hu1⟩ :=
    shrinkUpShared_basic H s.minSlaveSize s.relativeSizes idx hH hhalf
  obtain ⟨_, hs2a, hs2b, hl2, hm2, hu2⟩ :=
    shrinkDownShared_basic H s.minSlaveSize p1.1 idx hH hhalf
  obtain ⟨_, hs3a, hs3b, hl3, hm3, hu3⟩ :=
    shrinkUpShared_basic H s.minSlaveSize p2.1 idx hH hhalf
  obtain ⟨_, hs4a, hs4b, hl4, hm4, hu4⟩ :=
    shrinkDownShared_basic H s.minSlaveSize p3.1 idx hH hhalf
  have hlen1 : idx < p1.1.length := by rw [hl1]; exact hlen
  have hlen2 : idx < p2.1.length := by rw [hl2]; exact hlen1
  have hlen3 : idx < p3.1.length := by rw [hl3]; exact hlen2
  have hlen4 : idx < p4.1.length := by rw [hl4]; exact hlen3
  have hsum1 := shrinkUpShared_sum H s.minSlaveSize s.relativeSizes idx (amt / 2) hH hlen.le
  have hsum2 := shrinkDownShared_sum H s.minSlaveSize p1.1 idx (amt / 2) hH
  have hsum3 := shrinkUpShared_sum H s.minSlaveSize p2.1 idx (amt / 2) hH hlen2.le
  have hsum4 := shrinkDownShared_sum H s.minSlaveSize p3.1 idx (amt / 2) hH
  rw [← hp1] at hsum1
  rw [← hp2] at hsum2
  rw [← hp3] at hsum3
  rw [← hp4] at hsum4
  have huntouched : p4.1.getD idx 0 = s.relativeSizes.getD idx 0 := by
    rw [hu4 idx (le_refl idx), hu3 idx (le_refl idx), hu2 idx (le_refl idx),
      hu1 idx (le_refl idx)]
  refine ⟨?_, ?_, ?_, ?_⟩
  · -- the focused slave gains exactly what the others lost: sums balance
    rw [List.sum_set', dif_pos hlen4]
    simp only [List.getD_eq_getElem?_getD, List.getElem?_eq_getElem hlen4,
      Option.getD_some]
    rw [hsum4, hsum3, hsum2, hsum1]
    ring
  · intro j hj
    rw [getD_set_of_ne _ _ _ _ hj]
    exact le_trans (hm4 j) (le_trans (hm3 j) (le_trans (hm2 j) (hm1 j)))
  · rw [getD_set_self_of_lt _ _ _ hlen4, huntouched]
    have hD : 0 ≤ amt - (amt - (amt / 2 - p1.2) - (amt / 2 - p2.2) -
        (amt / 2 - p3.2) - (amt / 2 - p4.2)) := by linarith
    have := div_nonneg hD hH.le
    linarith
  · rw [getD_set_self_of_lt _ _ _ hlen4, huntouched]
    have hD : amt - (amt - (amt / 2 - p1.2) - (amt / 2 - p2.2) -
        (amt / 2 - p3.2) - (amt / 2 - p4.2)) ≤ 2 * amt := by linarith
    have hdiv := (div_le_div_iff_of_pos_right hH).mpr hD
    rw [hamt] at *
    linarith

/-! ### Facts used by the placement claims -/

theorem pyInt_intCast (k : ℤ) : pyInt (k : ℚ) = k := by
  unfold pyInt
  split_ifs <;> simp

theorem configureNorm_fields (t : MT) (r2 : Rect) :
    (configureNorm t r2).clientCount = t.clientCount ∧
    (configureNorm t r2).maximized = t.maximized ∧
    (configureNorm t r2).focused = t.focused ∧
    (configureNorm t r2).singleBorderWidth = t.singleBorderWidth ∧
    (configureNorm t r2).singleMargin = t.singleMargin := by
  unfold configureNorm cmdNormalizeState
  dsimp only
  split_ifs <;> exact ⟨rfl, rfl, rfl, rfl, rfl⟩

/-- C1 (amended): a placement pass gives every slave window the *equal* share
`screen_extent // slave_count` along the stacking axis — independent of the
`RelativeSizeVector` — and a position that is the index times that share,
i.e. the cumulative sum of the (equal) extents of the preceding slaves
(margin 0; tall stacks slaves along `y`, wide along `x`). -/
theorem slave_placement_equal_share (s : MT) (r : Rect) (cidx : ℕ) (v : List ℚ)
    (hmargin : s.margin = 0) (hslave : s.masterLength ≤ (cidx : ℤ)) :
    configureSpecificTall { s with relativeSizes := v } r cidx =
        configureSpecificTall s r cidx ∧
    outerHeight (configureSpecificTall s r cidx) =
      Int.fdiv r.height ((s.clientCount : ℤ) - s.masterLength) ∧
    outerTop (configureSpecificTall s r cidx) =
      r.y + ((cidx : ℤ) - s.masterLength) *
        Int.fdiv r.height ((s.clientCount : ℤ) - s.masterLength) ∧
    configureSpecificWide { s with relativeSizes := v } r cidx =
        configureSpecificWide s r cidx ∧
    outerWidth (configureSpecificWide s r cidx) =
      Int.fdiv r.width ((s.clientCount : ℤ) - s.masterLength) ∧
    outerLeft (configureSpecificWide s r cidx) =
      r.x + ((cidx : ℤ) - s.masterLength) *
        Int.fdiv r.width ((s.clientCount : ℤ) - s.masterLength) := by
  have hnm : ¬ ((cidx : ℤ) < s.masterLength) := not_lt.mpr hslave
  refine ⟨rfl, ?_, ?_, rfl, ?_, ?_⟩ <;>
    · simp only [configureSpecificTall, configureSpecificWide, outerHeight,
        outerTop, outerWidth, outerLeft, if_neg hnm, hmargin]
      split_ifs <;> ring

/-- C6 (amended): with at least two clients and a master count currently in
`[1, clientCount-1]`, `cmd_increase_nmaster` / `cmd_decrease_nmaster` change
`master_length` by exactly one, clamped into `[1, clientCount-1]`, and are
no-ops at the respective boundary. -/
theorem nmaster_adjust_clamped (s : MT) (h2 : 2 ≤ s.clientCount)
    (hlo : 1 ≤ s.masterLength) (hhi : s.masterLength ≤ (s.clientCount : ℤ) - 1) :
    ((cmdIncreaseNmaster s).masterLength =
      if s.masterLength = (s.clientCount : ℤ) - 1 then s.masterLength
      else s.masterLength + 1) ∧
    ((cmdDecreaseNmaster s).masterLength =
      if s.masterLength = 1 then s.masterLength else s.masterLength - 1) ∧
    1 ≤ (cmdIncreaseNmaster s).masterLength ∧
    (cmdIncreaseNmaster s).masterLength ≤ (s.clientCount : ℤ) - 1 ∧
    1 ≤ (cmdDecreaseNmaster s).masterLength ∧
    (cmdDecreaseNmaster s).masterLength ≤ (s.clientCount : ℤ) - 1 := by
  have hcc : (2 : ℤ) ≤ (s.clientCount : ℤ) := by exact_mod_cast h2
  unfold cmdIncreaseNmaster cmdDecreaseNmaster
  dsimp only
  split_ifs <;> omega

/-- C7: with the `maximized` flag set (or a single client), `configure` places
the current client at the full screen rectangle minus the single-window border
insets and hides every other client; toggling `cmd_maximize` twice restores
the flag, and the next placement pass computes exactly the placements from
before the toggle. -/
theorem maximize_fullscreen_and_restore (s : MT) (r : Rect) (cidx : ℕ)
    (hmax : s.maximized = true ∨ s.clientCount = 1) (hc : cidx < s.clientCount) :
    configure s r cidx =
      (if cidx = s.focused then
        ConfigResult.placed { x := r.x, y := r.y,
                              w := r.width - 2 * s.singleBorderWidth,
                              h := r.height - 2 * s.singleBorderWidth,
                              bw := s.singleBorderWidth,
                              mTop := s.singleMargin, mRight := s.singleMargin,
                              mBottom := s.singleMargin, mLeft := s.singleMargin }
      else ConfigResult.hidden) ∧
    configure (cmdMaximizeState (cmdMaximizeState s)) r cidx = configure s r cidx ∧
    (cmdMaximizeState (cmdMaximizeState s)).maximized = s.maximized := by
  have htoggle : cmdMaximizeState (cmdMaximizeState s) = s := by
    simp only [cmdMaximizeState, Bool.not_not]
  refine ⟨?_, by rw [htoggle], by rw [htoggle]⟩
  obtain ⟨hf1, hf2, hf3, hf4, hf5⟩ := configureNorm_fields s r
  unfold configure
  dsimp only
  rw [hf1, hf2, hf3, hf4, hf5]
  rw [if_neg (by omega), if_pos (by tauto)]

/-- C9 (amended): `cmd_normalize` resets the vector to `n` equal `1/n` shares
with `n = clientCount − 1` — one entry per client beyond the *first*,
regardless of the master count, which equals one entry per slave only when
`master_length = 1` — whenever `n ≥ 1` and a screen rect is present; it leaves
the vector alone when fewer than two clients exist, always clears the stale
flag, and `configure` runs its repairing normalize pass only when the vector
is empty or the stale flag is set. -/
theorem normalize_vector_shape (s : MT) (h2 : 2 ≤ s.clientCount)
    (hsr : s.screenRect.isSome = true) :
    (cmdNormalizeState s).relativeSizes =
      List.replicate (s.clientCount - 1) (1 / ((s.clientCount : ℚ) - 1)) ∧
    (cmdNormalizeState s).relativeSizes.length = s.clientCount - 1 ∧
    (s.masterLength = 1 → (cmdNormalizeState s).relativeSizes.length = slaveCount s) ∧
    (cmdNormalizeState s).doNormalize = false ∧
    (∀ t : MT, t.clientCount ≤ 1 →
      (cmdNormalizeState t).relativeSizes = t.relativeSizes) ∧
    (∀ t : MT, ∀ r2 : Rect, t.relativeSizes.isEmpty = false → t.doNormalize = false →
      configureNorm t r2 = { t with screenRect := some r2 }) := by
  have hrepl : (cmdNormalizeState s).relativeSizes =
      List.replicate (s.clientCount - 1) (1 / ((s.clientCount : ℚ) - 1)) := by
    unfold cmdNormalizeState
    dsimp only
    rw [if_pos (⟨by omega, hsr⟩ : 0 < (s.clientCount : ℤ) - 1 ∧ s.screenRect.isSome = true)]
    congr 1
    · omega
    · push_cast
      ring_nf
  refine ⟨hrepl, ?_, ?_, rfl, ?_, ?_⟩
  · rw [hrepl, List.length_replicate]
  · intro hml
    rw [hrepl, List.length_replicate]
    unfold slaveCount
    rw [hml]
    rfl
  · intro t ht
    unfold cmdNormalizeState
    dsimp only
    rw [if_neg (by omega)]
  · intro t r2 hne hdn
    unfold configureNorm
    dsimp only
    rw [if_neg (by simp [hne, hdn])]

/-- C10: calling `cmd_normalize` before the layout has ever been assigned a
screen rectangle leaves `relative_sizes` unchanged even when slave clients
exist, while the pending-normalize flag is still cleared. -/
theorem normalize_no_screen_rect_noop (s : MT) (hsr : s.screenRect = none) :
    (cmdNormalizeState s).relativeSizes = s.relativeSizes ∧
    (cmdNormalizeState s).doNormalize = false := by
  unfold cmdNormalizeState
  dsimp only
  rw [hsr]
  simp

/-- C8 (amended): with zero margin and the master windows laid along the
*secondary* axis (`orientation == 0`, the default: `_vert` for `MonadTall`,
`_hori` for `MonadWide`), every window's outer footprint stays inside the
screen rectangle along the split axis, and the footprints cover that extent
without gaps: the master band spans `int(extent * ratio)` pixels, the slave
band spans the rest. -/
theorem vertical_master_bands_partition (s : MT) (r : Rect)
    (hmargin : s.margin = 0) (hor : s.orientation = 0)
    (hml : 1 ≤ s.masterLength) (hmc : s.masterLength < (s.clientCount : ℤ))
    (hr0 : 0 ≤ s.ratio) (hr1 : s.ratio ≤ 1) (hw : 0 ≤ r.width) (hh : 0 ≤ r.height) :
    ((∀ i, i < s.clientCount →
      r.x ≤ outerLeft (configureSpecificTall s r i) ∧
      outerLeft (configureSpecificTall s r i) +
        outerWidth (configureSpecificTall s r i) ≤ r.x + r.width) ∧
    (∀ z : ℤ, r.x ≤ z → z < r.x + r.width →
      ∃ i ∈ List.range s.clientCount,
        outerLeft (configureSpecificTall s r i) ≤ z ∧
        z < outerLeft (configureSpecificTall s r i) +
          outerWidth (configureSpecificTall s r i))) ∧
    ((∀ i, i < s.clientCount →
      r.y ≤ outerTop (configureSpecificWide s r i) ∧
      outerTop (configureSpecificWide s r i) +
        outerHeight (configureSpecificWide s r i) ≤ r.y + r.height) ∧
    (∀ z : ℤ, r.y ≤ z → z < r.y + r.height →
      ∃ i ∈ List.range s.clientCount,
        outerTop (configureSpecificWide s r i) ≤ z ∧
        z < outerTop (configureSpecificWide s r i) +
          outerHeight (configureSpecificWide s r i))) := by
  have hwq : (0 : ℚ) ≤ (r.width : ℚ) := by exact_mod_cast hw
  have hhq : (0 : ℚ) ≤ (r.height : ℚ) := by exact_mod_cast hh
  have hwm0 : 0 ≤ pyInt ((r.width : ℚ) * s.ratio) := pyInt_nonneg (mul_nonneg hwq hr0)
  have hhm0 : 0 ≤ pyInt ((r.height : ℚ) * s.ratio) := pyInt_nonneg (mul_nonneg hhq hr0)
  have hwmW : pyInt ((r.width : ℚ) * s.ratio) ≤ r.width := by
    have h1 : (r.width : ℚ) * s.ratio ≤ ((r.width : ℤ) : ℚ) := by nlinarith
    have h2 := pyInt_mono h1
    rwa [pyInt_intCast] at h2
  have hhmH : pyInt ((r.height : ℚ) * s.ratio) ≤ r.height := by
    have h1 : (r.height : ℚ) * s.ratio ≤ ((r.height : ℤ) : ℚ) := by nlinarith
    have h2 := pyInt_mono h1
    rwa [pyInt_intCast] at h2
  have hmTall : ∀ i : ℕ, (i : ℤ) < s.masterLength →
      outerLeft (configureSpecificTall s r i) =
        (if s.align = 0 then r.x
         else r.x + (r.width - pyInt ((r.width : ℚ) * s.ratio))) ∧
      outerWidth (configureSpecificTall s r i) = pyInt ((r.width : ℚ) * s.ratio) := by
    intro i hi
    unfold configureSpecificTall outerLeft outerWidth
    dsimp only
    simp only [if_pos hi, if_pos hor, hmargin]
    refine ⟨?_, ?_⟩ <;> first | (split_ifs <;> ring) | ring
  have hsTall : ∀ i : ℕ, ¬ (i : ℤ) < s.masterLength →
      outerLeft (configureSpecificTall s r i) =
        (if s.align = 0 then r.x + pyInt ((r.width : ℚ) * s.ratio) else r.x) ∧
      outerWidth (configureSpecificTall s r i) =
        r.width - pyInt ((r.width : ℚ) * s.ratio) := by
    intro i hi
    unfold configureSpecificTall outerLeft outerWidth
    dsimp only
    simp only [if_neg hi, hmargin]
    refine ⟨?_, ?_⟩ <;> first | (split_ifs <;> ring) | ring
  have hmWide : ∀ i : ℕ, (i : ℤ) < s.masterLength →
      outerTop (configureSpecificWide s r i) =
        (if s.align = 0 then r.y
         else r.y + (r.height - pyInt ((r.height : ℚ) * s.ratio))) ∧
      outerHeight (configureSpecificWide s r i) = pyInt ((r.height : ℚ) * s.ratio) := by
    intro i hi
    unfold configureSpecificWide outerTop outerHeight
    dsimp only
    simp only [if_pos hi, if_pos hor, hmargin]
    refine ⟨?_, ?_⟩ <;> first | (split_ifs <;> ring) | ring
  have hsWide : ∀ i : ℕ, ¬ (i : ℤ) < s.masterLength →
      outerTop (configureSpecificWide s r i) =
        (if s.align = 0 then r.y + pyInt ((r.height : ℚ) * s.ratio) else r.y) ∧
      outerHeight (configureSpecificWide s r i) =
        r.height - pyInt ((r.height : ℚ) * s.ratio) := by
    intro i hi
    unfold configureSpecificWide outerTop outerHeight
    dsimp only
    simp only [if_neg hi, hmargin]
    refine ⟨?_, ?_⟩ <;> first | (split_ifs <;> ring) | ring
  have hml0 : (0 : ℤ) ≤ s.masterLength := by omega
  have htn : ((s.masterLength.toNat : ℤ)) = s.masterLength := Int.toNat_of_nonneg hml0
  have hmem0 : 0 ∈ List.range s.clientCount := by
    rw [List.mem_range]; omega
  have hmemM : s.masterLength.toNat ∈ List.range s.clientCount := by
    rw [List.mem_range]; omega
  have hm0 : ((0 : ℕ) : ℤ) < s.masterLength := by omega
  have hnotM : ¬ ((s.masterLength.toNat : ℤ) < s.masterLength) := by omega
  refine ⟨⟨?_, ?_⟩, ?_, ?_⟩
  · intro i hi
    by_cases him : (i : ℤ) < s.masterLength
    · obtain ⟨hL, hW⟩ := hmTall i him
      rw [hL, hW]
      split_ifs <;> omega
    · obtain ⟨hL, hW⟩ := hsTall i him
      rw [hL, hW]
      split_ifs <;> omega
  · intro z hz1 hz2
    by_cases halign : s.align = 0
    · by_cases hzm : z < r.x + pyInt ((r.width : ℚ) * s.ratio)
      · refine ⟨0, hmem0, ?_⟩
        obtain ⟨hL, hW⟩ := hmTall 0 hm0
        rw [hL, hW, if_pos halign]
        omega
      · refine ⟨s.masterLength.toNat, hmemM, ?_⟩
        obtain ⟨hL, hW⟩ := hsTall s.masterLength.toNat hnotM
        rw [hL, hW, if_pos halign]
        omega
    · by_cases hzs : z < r.x + (r.width - pyInt ((r.width : ℚ) * s.ratio))
      · refine ⟨s.masterLength.toNat, hmemM, ?_⟩
        obtain ⟨hL, hW⟩ := hsTall s.masterLength.toNat hnotM
        rw [hL, hW, if_neg halign]
        omega
      · refine ⟨0, hmem0, ?_⟩
        obtain ⟨hL, hW⟩ := hmTall 0 hm0
        rw [hL, hW, if_neg halign]
        omega
  · intro i hi
    by_cases him : (i : ℤ) < s.masterLength
    · obtain ⟨hL, hW⟩ := hmWide i him
      rw [hL, hW]
      split_ifs <;> omega
    · obtain ⟨hL, hW⟩ := hsWide i him
      rw [hL, hW]
      split_ifs <;> omega
  · intro z hz1 hz2
    by_cases halign : s.align = 0
    · by_cases hzm : z < r.y + pyInt ((r.height : ℚ) * s.ratio)
      · refine ⟨0, hmem0, ?_⟩
        obtain ⟨hL, hW⟩ := hmWide 0 hm0
        rw [hL, hW, if_pos halign]
        omega
      · refine ⟨s.masterLength.toNat, hmemM, ?_⟩
        obtain ⟨hL, hW⟩ := hsWide s.masterLength.toNat hnotM
        rw [hL, hW, if_pos halign]
        omega
    · by_cases hzs : z < r.y + (r.height - pyInt ((r.height : ℚ) * s.ratio))
      · refine ⟨s.masterLength.toNat, hmemM, ?_⟩
        obtain ⟨hL, hW⟩ := hsWide s.masterLength.toNat hnotM
        rw [hL, hW, if_neg halign]
        omega
      · refine ⟨0, hmem0, ?_⟩
        obtain ⟨hL, hW⟩ := hmWide 0 hm0
        rw [hL, hW, if_neg halign]
        omega

/-! ### The code-bug claims and the concrete counterexamples / witnesses -/

/-- C4: `cmd_reset` sets the ratio back to the midpoint and the alignment to
left, but on a state with horizontal orientation it leaves `orientation`
horizontal: the source's third statement assigns `self.align = self._vert`
instead of `self.orientation = self._vert`, so the claim's "orientation
equals vertical" fails. -/
theorem reset_keeps_horizontal_orientation :
    (cmdResetState stateC4).orientation = 1 ∧
    (cmdResetState stateC4).ratio = 1 / 2 ∧
    (cmdResetState stateC4).align = 0 := by decide

/-- C5: when no client lies strictly on the requested side of the focused
window, `cmd_swap_left` / `cmd_swap_right` are not no-ops: `_get_closest`
calls Python's `min` on the empty candidate list without a `default`, which
raises `ValueError` (embedded as `none`). -/
theorem swap_without_candidate_errors :
    cmdSwapLeft swapA = none ∧ cmdSwapRight swapB = none := by decide

/-- C1 counterexample: with slave size vector `[1/4, 3/4]` on a 1000-pixel
screen, the first slave's placed extent is the equal share 500, not the
250 pixels proportional to its `RelativeSizeVector` entry. -/
theorem slave_placement_ignores_size_vector_cex :
    outerHeight (configureSpecificTall stateC1 rectA 1) = 500 ∧
    pyInt (stateC1.relativeSizes.getD 0 0 * 1000) = 250 ∧
    outerHeight (configureSpecificTall stateC1 rectA 1) ≠
      pyInt (stateC1.relativeSizes.getD 0 0 * 1000) := by decide

/-- C1 witness. -/
theorem slave_placement_equal_share_witness :
    configureSpecificTall { baseState with relativeSizes := [] } rectA 2 =
        configureSpecificTall baseState rectA 2 ∧
    outerHeight (configureSpecificTall baseState rectA 2) =
      Int.fdiv rectA.height ((baseState.clientCount : ℤ) - baseState.masterLength) ∧
    outerTop (configureSpecificTall baseState rectA 2) =
      rectA.y + (((2 : ℕ) : ℤ) - baseState.masterLength) *
        Int.fdiv rectA.height ((baseState.clientCount : ℤ) - baseState.masterLength) ∧
    configureSpecificWide { baseState with relativeSizes := [] } rectA 2 =
        configureSpecificWide baseState rectA 2 ∧
    outerWidth (configureSpecificWide baseState rectA 2) =
      Int.fdiv rectA.width ((baseState.clientCount : ℤ) - baseState.masterLength) ∧
    outerLeft (configureSpecificWide baseState rectA 2) =
      rectA.x + (((2 : ℕ) : ℤ) - baseState.masterLength) *
        Int.fdiv rectA.width ((baseState.clientCount : ℤ) - baseState.masterLength) :=
  slave_placement_equal_share baseState rectA 2 [] rfl (by decide)

/-- C2 counterexample: from a state in which every slave's tracked size is at
least the 85-pixel minimum (90 and 910 pixels), a single `cmd_shrink` on the
first slave drives its tracked size to 70 pixels: the clamp in
`_shrink_slave` compares against the host-reported window height (496), not
against the tracked size. -/
theorem shrink_breaks_min_slave_floor_cex :
    slaveFloorInv 1000 85 stateC2.relativeSizes ∧
    ¬ slaveFloorInv 1000 85 (cmdShrink stateC2).relativeSizes := by decide

/-- C2 witness. -/
theorem grow_sequences_keep_min_slave_floor_witness :
    slaveFloorInv (screenHeightQ baseState) baseState.minSlaveSize
      (growFocusSeq baseState [1, 2]).relativeSizes :=
  grow_sequences_keep_min_slave_floor [1, 2] baseState (by decide) (by decide)
    (by decide)

set_option maxRecDepth 8000 in
/-- C3 counterexample: growing a middle slave by the requested 20 pixels
increases the focused slave by 40 pixels — each neighbour group is asked for
half the amount twice — so the requested amount is not what is split between
the two groups. -/
theorem grow_middle_doubles_request_cex :
    (cmdGrow stateC3).relativeSizes.getD 1 0 - stateC3.relativeSizes.getD 1 0 =
      2 * stateC3.changeSize / screenHeightQ stateC3 ∧
    ¬ ((cmdGrow stateC3).relativeSizes.getD 1 0 - stateC3.relativeSizes.getD 1 0 ≤
      stateC3.changeSize / screenHeightQ stateC3) := by decide

/-- C3 witness. -/
theorem cmdGrow_middle_slave_parts_witness :
    (cmdGrow stateC3).relativeSizes.sum = stateC3.relativeSizes.sum ∧
    (∀ j, j ≠ stateC3.focused - 1 →
      (cmdGrow stateC3).relativeSizes.getD j 0 ≤ stateC3.relativeSizes.getD j 0) ∧
    stateC3.relativeSizes.getD (stateC3.focused - 1) 0 ≤
      (cmdGrow stateC3).relativeSizes.getD (stateC3.focused - 1) 0 ∧
    (cmdGrow stateC3).relativeSizes.getD (stateC3.focused - 1) 0 ≤
      stateC3.relativeSizes.getD (stateC3.focused - 1) 0 +
        2 * stateC3.changeSize / screenHeightQ stateC3 :=
  cmdGrow_middle_slave_parts stateC3 (by decide) (by decide) (by decide)
    (by decide) (by decide) (by decide) (by decide)

/-- C6 counterexample: with a single client, `cmd_increase_nmaster` sets
`master_length` to `len(clients) - 1 = 0`, leaving the claimed range
`[1, windowCount - 1]` (and changing a boundary state instead of leaving it). -/
theorem increase_nmaster_single_client_cex :
    (cmdIncreaseNmaster stateC6).masterLength = 0 ∧
    ¬ (1 ≤ (cmdIncreaseNmaster stateC6).masterLength) := by decide

/-- C6 witness. -/
theorem nmaster_adjust_clamped_witness :
    ((cmdIncreaseNmaster baseState).masterLength =
      if baseState.masterLength = (baseState.clientCount : ℤ) - 1 then
        baseState.masterLength
      else baseState.masterLength + 1) ∧
    ((cmdDecreaseNmaster baseState).masterLength =
      if baseState.masterLength = 1 then baseState.masterLength
      else baseState.masterLength - 1) ∧
    1 ≤ (cmdIncreaseNmaster baseState).masterLength ∧
    (cmdIncreaseNmaster baseState).masterLength ≤ (baseState.clientCount : ℤ) - 1 ∧
    1 ≤ (cmdDecreaseNmaster baseState).masterLength ∧
    (cmdDecreaseNmaster baseState).masterLength ≤ (baseState.clientCount : ℤ) - 1 :=
  nmaster_adjust_clamped baseState (by decide) (by decide) (by decide)

/-- C7 witness. -/
theorem maximize_fullscreen_and_restore_witness :
    configure stateC7 rectA 1 =
      (if 1 = stateC7.focused then
        ConfigResult.placed { x := rectA.x, y := rectA.y,
                              w := rectA.width - 2 * stateC7.singleBorderWidth,
                              h := rectA.height - 2 * stateC7.singleBorderWidth,
                              bw := stateC7.singleBorderWidth,
                              mTop := stateC7.singleMargin,
                              mRight := stateC7.singleMargin,
                              mBottom := stateC7.singleMargin,
                              mLeft := stateC7.singleMargin }
      else ConfigResult.hidden) ∧
    configure (cmdMaximizeState (cmdMaximizeState stateC7)) rectA 1 =
      configure stateC7 rectA 1 ∧
    (cmdMaximizeState (cmdMaximizeState stateC7)).maximized = stateC7.maximized :=
  maximize_fullscreen_and_restore stateC7 rectA 1 (Or.inl rfl) (by decide)

/-- C8 counterexample: two master windows laid *along* the split axis
(`orientation = 1`) with `int(1000 * 0.501) = 501`: floor division gives each
master 250 pixels, covering `[0, 500)`, while the slave band starts at 501 —
pixel 500 of the screen extent is covered by no window. -/
theorem horizontal_masters_leave_gap_cex :
    rectA.x ≤ 500 ∧ (500 : ℤ) < rectA.x + rectA.width ∧
    ¬ ∃ i ∈ List.range stateC8.clientCount,
      outerLeft (configureSpecificTall stateC8 rectA i) ≤ 500 ∧
      (500 : ℤ) < outerLeft (configureSpecificTall stateC8 rectA i) +
        outerWidth (configureSpecificTall stateC8 rectA i) := by decide

/-- C8 witness. -/
theorem vertical_master_bands_partition_witness :
    ((∀ i, i < stateC8v.clientCount →
      rectA.x ≤ outerLeft (configureSpecificTall stateC8v rectA i) ∧
      outerLeft (configureSpecificTall stateC8v rectA i) +
        outerWidth (configureSpecificTall stateC8v rectA i) ≤ rectA.x + rectA.width) ∧
    (∀ z : ℤ, rectA.x ≤ z → z < rectA.x + rectA.width →
      ∃ i ∈ List.range stateC8v.clientCount,
        outerLeft (configureSpecificTall stateC8v rectA i) ≤ z ∧
        z < outerLeft (configureSpecificTall stateC8v rectA i) +
          outerWidth (configureSpecificTall stateC8v rectA i))) ∧
    ((∀ i, i < stateC8v.clientCount →
      rectA.y ≤ outerTop (configureSpecificWide stateC8v rectA i) ∧
      outerTop (configureSpecificWide stateC8v rectA i) +
        outerHeight (configureSpecificWide stateC8v rectA i) ≤ rectA.y + rectA.height) ∧
    (∀ z : ℤ, rectA.y ≤ z → z < rectA.y + rectA.height →
      ∃ i ∈ List.range stateC8v.clientCount,
        outerTop (configureSpecificWide stateC8v rectA i) ≤ z ∧
        z < outerTop (configureSpecificWide stateC8v rectA i) +
          outerHeight (configureSpecificWide stateC8v rectA i))) :=
  vertical_master_bands_partition stateC8v rectA rfl rfl (by decide) (by decide)
    (by decide) (by decide) (by decide) (by decide)

/-- C9 counterexample: with four clients of which two are masters,
`cmd_normalize` builds a vector of `len(clients) - 1 = 3` entries although
only two slave windows exist. -/
theorem normalize_length_vs_slave_count_cex :
    (cmdNormalizeState stateC9).relativeSizes.length = 3 ∧
    slaveCount stateC9 = 2 ∧
    (cmdNormalizeState stateC9).relativeSizes.length ≠ slaveCount stateC9 := by
  decide

/-- C9 witness. -/
theorem normalize_vector_shape_witness :
    (cmdNormalizeState stateC9).relativeSizes =
      List.replicate (stateC9.clientCount - 1) (1 / ((stateC9.clientCount : ℚ) - 1)) ∧
    (cmdNormalizeState stateC9).relativeSizes.length = stateC9.clientCount - 1 ∧
    (stateC9.masterLength = 1 →
      (cmdNormalizeState stateC9).relativeSizes.length = slaveCount stateC9) ∧
    (cmdNormalizeState stateC9).doNormalize = false ∧
    (∀ t : MT, t.clientCount ≤ 1 →
      (cmdNormalizeState t).relativeSizes = t.relativeSizes) ∧
    (∀ t : MT, ∀ r2 : Rect, t.relativeSizes.isEmpty = false → t.doNormalize = false →
      configureNorm t r2 = { t with screenRect := some r2 }) :=
  normalize_vector_shape stateC9 (by decide) (by decide)

/-- C10 witness. -/
theorem normalize_no_screen_rect_noop_witness :
    (cmdNormalizeState stateC10).relativeSizes = stateC10.relativeSizes ∧
    (cmdNormalizeState stateC10).doNormalize = false :=
  normalize_no_screen_rect_noop stateC10 rfl

end QtileXmonad
